import Mathlib

/-!
Verification of `solution.py`: a three-stage batch pipeline
(file discovery → JSON merge/normalize → CSV left join).

The embedding models JSON scalar cells (`Val`), records as association
lists, pandas DataFrames as a column list plus row records, the
filesystem as a tree, and each Python function as a Lean function.
Exceptions raised by pandas (`KeyError` on a missing sort/dedup/join
column) are modelled with `Except`; `print` diagnostics are modelled as
a returned list of log lines; the in-place mutation of `merged_df` in
`join_csv_files` is modelled by returning the final state of that frame.
-/

set_option autoImplicit false

namespace Solution

/-- A scalar cell value: JSON string, JSON integer, or missing (pandas NaN). -/
inductive Val where
  | vstr (s : String)
  | vint (n : Int)
  | vnull
deriving DecidableEq, Repr

/-- A record: an association list from field names to values
(a Python dict in source order). -/
abbrev Record := List (String × Val)

/-- Dictionary lookup; a missing key reads as the missing value (NaN). -/
def getVal (r : Record) (k : String) : Val :=
  match r with
  | [] => .vnull
  | (k', v) :: rest => if k' = k then v else getVal rest k

/-- Python dict assignment `r[k] = v`: replaces the value in place if the
key exists (keeping its position), else appends the key at the end. -/
def setField (r : Record) (k : String) (v : Val) : Record :=
  match r with
  | [] => [(k, v)]
  | (k', v') :: rest => if k' = k then (k, v) :: rest else (k', v') :: setField rest k v

/-! ### String utilities (code-point comparisons, as in Python) -/

/-- Lexicographic comparison of character lists by code point,
matching Python string `<=`. -/
def charListLe : List Char → List Char → Bool
  | [], _ => true
  | _ :: _, [] => false
  | a :: as, b :: bs => if a = b then charListLe as bs else Nat.blt a.toNat b.toNat

/-- Python string `<=` (lexicographic by code point). -/
def strLeB (s t : String) : Bool := charListLe s.data t.data

/-- Does `pat` occur at the start of `s`? -/
def csLeads : List Char → List Char → Bool
  | [], _ => true
  | _ :: _, [] => false
  | a :: pa, b :: sb => a = b && csLeads pa sb

/-- Python `s.endswith(pat)`. -/
def strEnds (s pat : String) : Bool := csLeads pat.data.reverse s.data.reverse

/-- Does `pat` occur anywhere in `s`? (Python `pat in s`). -/
def csHasSub (pat : List Char) : List Char → Bool
  | [] => pat.isEmpty
  | b :: rest => csLeads pat (b :: rest) || csHasSub pat rest

/-- Python `pat in s` (substring containment). -/
def strHasSub (s pat : String) : Bool := csHasSub pat.data s.data

/-- Python `s.lower()` (per-character lowercase). -/
def lowerStr (s : String) : String := .mk (s.data.map Char.toLower)

/-- Python `os.path.basename`: the part of the path after the last slash. -/
def basenameOf (p : String) : String :=
  .mk ((p.data.reverse.takeWhile (· ≠ '/')).reverse)

/-- Python `os.path.splitext(name)[0]`: the name with its extension stripped at
the last dot; leading dots of the name never count as a separator. -/
def stemOf (nm : String) : String :=
  let cs := nm.data
  let lead := cs.takeWhile (· = '.')
  let rest := cs.dropWhile (· = '.')
  if rest.any (· = '.') then
    .mk (lead ++ ((rest.reverse.dropWhile (· ≠ '.')).drop 1).reverse)
  else nm

/-- The category tag derived from a file path (basename without extension),
`solution.py` lines 48-49. -/
def categoryOfPath (p : String) : String := stemOf (basenameOf p)

/-- Python `str()` applied to a cell, as `astype(str)` does:
strings unchanged, integers in decimal, NaN becomes `"nan"`. -/
def pyStr : Val → String
  | .vstr s => s
  | .vint n => toString n
  | .vnull => "nan"

/-- Python `sorted` on strings (a stable sort under lexicographic order). -/
def pySorted (l : List String) : List String :=
  List.insertionSort (fun a b => strLeB a b = true) l

/-! ### Stage 1: file discovery (`find_json_files`, lines 5-31) -/

/-- A filesystem tree: named files and directories
(children in directory-listing order). -/
inductive FSTree where
  | file (name : String)
  | dir (name : String) (children : List FSTree)

/-- The `.json`-named files of one directory level, as full paths
(the `for file in files` loop body, line 27-29). -/
def jsonHere (pre : String) : List FSTree → List String
  | [] => []
  | .file n :: es => (if strEnds n ".json" then [pre ++ "/" ++ n] else []) ++ jsonHere pre es
  | .dir _ _ :: es => jsonHere pre es

/-- Recursive descent of `os.walk` into subdirectories, skipping the
pruned directory names (line 25): each visited directory contributes its
own `.json` files first, then its subtrees in listing order. -/
def walkSubs (pre : String) : List FSTree → List String
  | [] => []
  | .file _ :: es => walkSubs pre es
  | .dir d cs :: es =>
      (if d = "_MACOSX" ∨ d = ".DS_Store" then [] else
        jsonHere (pre ++ "/" ++ d) cs ++ walkSubs (pre ++ "/" ++ d) cs) ++ walkSubs pre es

/-- All `.json` paths collected by the `os.walk` loop from the base
directory (lines 23-29). -/
def walkLevel (pre : String) (es : List FSTree) : List String :=
  jsonHere pre es ++ walkSubs pre es

/-- Modelled from the spec: the set of file paths under the directory
(recursive) whose name ends in `.json`, excluding any subtree rooted at a
directory named `_MACOSX` or a file/directory named `.DS_Store` — the
discovery contract of spec section 4.1, checked against the walk. -/
def specPaths (pre : String) : List FSTree → List String
  | [] => []
  | .file n :: es =>
      (if strEnds n ".json" = true ∧ n ≠ ".DS_Store" then [pre ++ "/" ++ n] else []) ++
        specPaths pre es
  | .dir d cs :: es =>
      (if d = "_MACOSX" ∨ d = ".DS_Store" then [] else specPaths (pre ++ "/" ++ d) cs) ++
        specPaths pre es

/-- Embedding of `find_json_files(base_dir)` (lines 5-31). The argument is `none` when
the base directory does not exist. Returns the sorted path list together
with the printed diagnostics. -/
def findJsonFiles (baseDir : String) (tree : Option (List FSTree)) :
    List String × List String :=
  match tree with
  | none => ([], ["Warning: Directory " ++ baseDir ++ " does not exist"])
  | some es => (pySorted (walkLevel baseDir es), [])

/-! ### Stage 2: merge and normalize (`merge_json_files`, lines 33-83) -/

/-- One input file: its path and its parsed content. `none` models any
exception inside the `try` block of lines 51-60 (unreadable file,
malformed JSON, or a top-level shape that breaks the tagging loop). -/
structure FileInput where
  path : String
  content : Option (List Record)

/-- The records contributed by one file: each parsed record gets the
`category` field set to the stem of the file (lines 56-59); a failed file
contributes nothing (line 61-62). -/
def taggedRecords (f : FileInput) : List Record :=
  match f.content with
  | none => []
  | some data => data.map (fun r => setField r "category" (.vstr (categoryOfPath f.path)))

/-- The list `all_records` after the reading loop (lines 44-62). -/
def aggRecords (fs : List FileInput) : List Record := fs.flatMap taggedRecords

/-- The console line printed for one file (lines 60 and 62). -/
def fileLog (f : FileInput) : String :=
  match f.content with
  | none => "Error processing " ++ f.path
  | some data => "Processed " ++ f.path ++ ": " ++ toString data.length ++ " records"

/-- All per-file console lines of the reading loop. -/
def mergeLogs (fs : List FileInput) : List String := fs.map fileLog

/-- A pandas DataFrame: ordered column labels and the row records.
A key absent from a row record reads as NaN. -/
structure DataFrame where
  columns : List String
  rows : List Record
deriving DecidableEq, Repr

/-- Insert keys not yet present, preserving first-appearance order. -/
def addKeys (acc : List String) : List String → List String
  | [] => acc
  | k :: ks => if k ∈ acc then addKeys acc ks else addKeys (acc ++ [k]) ks

/-- Columns of `pd.DataFrame(all_records)`: the union of the record keys
in order of first appearance. -/
def unionKeys (recs : List Record) : List String :=
  recs.foldl (fun acc r => addKeys acc (r.map Prod.fst)) []

/-- The column-label rename `id → sku` of line 69. -/
def renameKey (k : String) : String := if k = "id" then "sku" else k

/-- Rename the keys of one record under `id → sku`. -/
def renameRec (r : Record) : Record := r.map (fun p => (renameKey p.1, p.2))

/-- Lines 67-69: the frame after the conditional global rename `id → sku`
(applied only when an `id` column exists and no `sku` column does),
as a pair of columns and rows. -/
def renamedState (recs : List Record) : List String × List Record :=
  let cols := unionKeys recs
  if "id" ∈ cols ∧ "sku" ∉ cols then
    (cols.map renameKey, recs.map renameRec)
  else (cols, recs)

/-- The rows entering the dedup step (after aggregation and rename). -/
def renamedRows (fs : List FileInput) : List Record := (renamedState (aggRecords fs)).2

/-- The sort key of line 73: the text of the `category` cell. -/
def catKey (r : Record) : String := pyStr (getVal r "category")

/-- The dedup key of line 73: the raw `sku` cell. -/
def skuOf (r : Record) : Val := getVal r "sku"

/-- Embedding of `sort_values` on the `category` column: rows ordered by
category text ascending. -/
def sortByCategory (rows : List Record) : List Record :=
  List.insertionSort (fun r1 r2 => strLeB (catKey r1) (catKey r2) = true) rows

/-- Embedding of `drop_duplicates` with subset `sku` and keep-last: a row is dropped when a
later row carries an equal `sku` value; original order is preserved. -/
def dropDupLast (key : Record → Val) : List Record → List Record
  | [] => []
  | r :: rs =>
      if rs.any (fun x => decide (key x = key r)) then dropDupLast key rs
      else r :: dropDupLast key rs

/-- The required output schema (line 76). -/
def requiredColumns : List String := ["sku", "name", "brand", "category"]

/-- The warning printed for a missing required column (line 79). -/
def warnMissing (col : String) : String :=
  "Warning: Required column " ++ col ++ " not found in data. Creating empty column."

/-- One iteration of the loop of lines 77-80 over the state
(columns, rows, log): a missing column is appended and filled with the
empty string in every row. -/
def addCol (st : List String × List Record × List String) (c : String) :
    List String × List Record × List String :=
  if c ∈ st.1 then st
  else (st.1 ++ [c], st.2.1.map (fun r => setField r c (.vstr "")), st.2.2 ++ [warnMissing c])

/-- The whole required-column loop of lines 77-80. -/
def addMissing (st : List String × List Record × List String) :
    List String × List Record × List String :=
  requiredColumns.foldl addCol st

/-- The projection `df[required_columns]` applied to one row: the row restricted and
reordered to the four required columns. -/
def projectRow (cols : List String) (r : Record) : Record :=
  cols.map (fun c => (c, getVal r c))

/-- Lines 64-83 applied to the aggregated records: DataFrame
construction, conditional rename, sort by category, dedup by `sku`,
required-column synthesis, and projection. `sort_values` raises KeyError
when no `category` column exists (only possible when there are no
records), and `drop_duplicates` raises KeyError when no `sku` column
exists; both are modelled as errors. Also returns the log lines printed
after the reading loop. -/
def mergeCore (recs : List Record) : Except String DataFrame × List String :=
  let st := renamedState recs
  if "category" ∈ st.1 then
    let sorted := sortByCategory st.2
    if "sku" ∈ st.1 then
      let deduped := dropDupLast skuOf sorted
      let filled := addMissing (st.1, deduped, [])
      (.ok ⟨requiredColumns, filled.2.1.map (projectRow requiredColumns)⟩, filled.2.2)
    else (.error "KeyError: sku", [])
  else (.error "KeyError: category", [])

/-- Embedding of `merge_json_files(json_files)` (lines 33-83): the resulting frame
(or the pandas exception) together with all console lines. -/
def mergeJsonFiles (fs : List FileInput) : Except String DataFrame × List String :=
  ((mergeCore (aggRecords fs)).1, mergeLogs fs ++ (mergeCore (aggRecords fs)).2)

/-! ### Stage 3: join (`join_csv_files`, lines 85-127) -/

/-- Comma-separated rendering of the column list (line 109). -/
def joinComma : List String → String
  | [] => ""
  | [c] => c
  | c :: cs => c ++ ", " ++ joinComma cs

/-- Lines 99-109: resolve the join column of the external frame —
`product_sku` if present, else the first column whose lowercased name
contains `sku`, else the literal `product_sku` with two warnings. -/
def resolveJoinCol (cols : List String) : String × List String :=
  if "product_sku" ∈ cols then ("product_sku", [])
  else
    match cols.filter (fun c => strHasSub (lowerStr c) "sku") with
    | c :: _ => (c, ["Using " ++ c ++ " for joining instead of product_sku"])
    | [] => ("product_sku",
        ["Warning: product_sku column not found in input.csv",
         "Available columns: " ++ joinComma cols])

/-- Embedding of `astype(str)` column assignment: every cell of column `c` is replaced by
its textual form (lines 112-116). -/
def astypeStr (df : DataFrame) (c : String) : DataFrame :=
  ⟨df.columns, df.rows.map (fun r => setField r c (.vstr (pyStr (getVal r c))))⟩

/-- Output column labels of `pd.merge`: labels shared by the other side
get the pandas `_x`/`_y` suffix. -/
def suffixCols (own other : List String) (suf : String) : List String :=
  own.map (fun c => if c ∈ other then c ++ suf else c)

/-- One output row of the left join: the columns of the left record, then
the columns of the right record (NaN throughout when unmatched). -/
def joinedRow (lcols rcols : List String) (lr : Record) (rr : Option Record) : Record :=
  (lcols.map fun c => (if c ∈ rcols then c ++ "_x" else c, getVal lr c)) ++
    (rcols.map fun c => (if c ∈ lcols then c ++ "_y" else c,
      match rr with | some r => getVal r c | none => Val.vnull))

/-- Embedding of the left `pd.merge` of lines 119-125 (join `ldf` with
`rdf` on `lk` = `rk`): every left row appears once per matching right
row, or once with NaN right columns when unmatched; left order kept. -/
def leftMerge (ldf rdf : DataFrame) (lk rk : String) : DataFrame :=
  ⟨suffixCols ldf.columns rdf.columns "_x" ++ suffixCols rdf.columns ldf.columns "_y",
   ldf.rows.flatMap (fun lr =>
     match rdf.rows.filter (fun rr => decide (getVal rr rk = getVal lr lk)) with
     | [] => [joinedRow ldf.columns rdf.columns lr none]
     | ms => ms.map (fun rr => joinedRow ldf.columns rdf.columns lr (some rr)))⟩

/-- Embedding of `join_csv_files(merged_df, input_csv)` (lines 85-127). Returns the
join result (or the pandas KeyError when a join key column is absent),
the final state of the caller-visible `merged_df` (its `sku` column is coerced
to text in place by line 116), and the console lines. -/
def joinCsvFiles (mergedDf inputDf : DataFrame) :
    Except String DataFrame × DataFrame × List String :=
  let rc := resolveJoinCol inputDf.columns
  let input2 := if rc.1 ∈ inputDf.columns then astypeStr inputDf rc.1 else inputDf
  let merged2 := if "sku" ∈ mergedDf.columns then astypeStr mergedDf "sku" else mergedDf
  if rc.1 ∈ input2.columns ∧ "sku" ∈ merged2.columns then
    (.ok (leftMerge input2 merged2 rc.1 "sku"), merged2, rc.2)
  else (.error "KeyError", merged2, rc.2)

/-! ### Concrete inputs used by individual claims -/

/-- The two files of the dedup-precedence example (§8 P3). -/
def fsC1 : List FileInput :=
  [⟨"electronics.json", some [[("id", .vint 1), ("name", .vstr "X")]]⟩,
   ⟨"home.json", some [[("id", .vint 1), ("name", .vstr "Y")]]⟩]

/-- Expected merged table for `fsC1`. -/
def dfC1 : DataFrame :=
  ⟨["sku", "name", "brand", "category"],
   [[("sku", .vint 1), ("name", .vstr "Y"), ("brand", .vstr ""), ("category", .vstr "home")]]⟩

/-- Two files whose `sku` values are distinct raw values (`"1"` vs `1`)
but share the textual form `"1"`. -/
def c5files : List FileInput :=
  [⟨"a.json", some [[("sku", .vstr "1"), ("name", .vstr "A")]]⟩,
   ⟨"b.json", some [[("sku", .vint 1), ("name", .vstr "B")]]⟩]

/-- The catalog table the merge stage produces from `c5files`. -/
def c5cat : DataFrame :=
  ⟨["sku", "name", "brand", "category"],
   [[("sku", .vstr "1"), ("name", .vstr "A"), ("brand", .vstr ""), ("category", .vstr "a")],
    [("sku", .vint 1), ("name", .vstr "B"), ("brand", .vstr ""), ("category", .vstr "b")]]⟩

/-- A one-row external CSV keyed by the integer `1`. -/
def c5csv : DataFrame := ⟨["product_sku"], [[("product_sku", .vint 1)]]⟩

/-- The join of `c5cat` with `c5csv`: the single external row matches
both catalog rows after textual coercion, so it is duplicated. -/
def c5joined : DataFrame :=
  ⟨["product_sku", "sku", "name", "brand", "category"],
   [[("product_sku", .vstr "1"), ("sku", .vstr "1"), ("name", .vstr "A"),
     ("brand", .vstr ""), ("category", .vstr "a")],
    [("product_sku", .vstr "1"), ("sku", .vstr "1"), ("name", .vstr "B"),
     ("brand", .vstr ""), ("category", .vstr "b")]]⟩

/-- A one-row catalog whose `sku` is the string `"100"`. -/
def cat7 : DataFrame :=
  ⟨["sku", "name", "brand", "category"],
   [[("sku", .vstr "100"), ("name", .vstr "A"), ("brand", .vstr "B"), ("category", .vstr "home")]]⟩

/-- A one-row external CSV whose key is the integer `100`. -/
def csv7 : DataFrame := ⟨["product_sku"], [[("product_sku", .vint 100)]]⟩

/-- The join of `cat7` with `csv7`: the textual forms match, so the row
is enriched with the catalog columns. -/
def j7 : DataFrame :=
  ⟨["product_sku", "sku", "name", "brand", "category"],
   [[("product_sku", .vstr "100"), ("sku", .vstr "100"), ("name", .vstr "A"),
     ("brand", .vstr "B"), ("category", .vstr "home")]]⟩

/-- A catalog with an integer-typed `sku`, for observing the in-place
coercion of line 116. -/
def m9 : DataFrame :=
  ⟨["sku", "name", "brand", "category"],
   [[("sku", .vint 1), ("name", .vstr "A"), ("brand", .vstr ""), ("category", .vstr "c")]]⟩

/-- An external frame with no SKU-like column at all. -/
def i4 : DataFrame := ⟨["store", "qty"], [[("store", .vstr "s1"), ("qty", .vint 2)]]⟩

/-! ### Lemmas: the directory walk against the spec description -/

theorem json_not_dsstore {n : String} (h : strEnds n ".json" = true) : n ≠ ".DS_Store" := by
  intro hn
  subst hn
  exact absurd h (by decide)

theorem walk_perm (pre : String) (es : List FSTree) :
    (walkLevel pre es).Perm (specPaths pre es) := by
  match es with
  | [] => simp [walkLevel, jsonHere, walkSubs, specPaths]
  | .file n :: es =>
    have ih := walk_perm pre es
    simp only [walkLevel, jsonHere, walkSubs, specPaths, List.append_assoc] at ih ⊢
    have hcond : (strEnds n ".json" = true ∧ n ≠ ".DS_Store") ↔ (strEnds n ".json" = true) :=
      ⟨fun h => h.1, fun h => ⟨h, json_not_dsstore h⟩⟩
    rw [if_congr hcond rfl rfl]
    exact ih.append_left _
  | .dir d cs :: es =>
    have ih := walk_perm pre es
    by_cases hd : d = "_MACOSX" ∨ d = ".DS_Store"
    · simp only [walkLevel, jsonHere, walkSubs, specPaths, if_pos hd, List.nil_append]
      exact ih
    · have ihc := walk_perm (pre ++ "/" ++ d) cs
      simp only [walkLevel, jsonHere, walkSubs, specPaths, if_neg hd] at ihc ⊢
      exact (List.perm_append_comm_assoc (jsonHere pre es)
        (jsonHere (pre ++ "/" ++ d) cs ++ walkSubs (pre ++ "/" ++ d) cs)
        (walkSubs pre es)).trans (ihc.append ih)
termination_by sizeOf es

end Solution

deriving instance DecidableEq for Except

namespace Solution

/-! ### Lemmas: records -/

theorem getVal_setField_same (r : Record) (k : String) (v : Val) :
    getVal (setField r k v) k = v := by
  induction r with
  | nil => simp [setField, getVal]
  | cons p rest ih =>
    by_cases h : p.1 = k
    · simp [setField, h, getVal]
    · simp [setField, h, getVal, ih]

theorem getVal_setField_other (r : Record) (k k' : String) (v : Val) (h : k' ≠ k) :
    getVal (setField r k v) k' = getVal r k' := by
  have h1 : ¬(k = k') := Ne.symm h
  induction r with
  | nil => simp [setField, getVal, h1]
  | cons p rest ih =>
    by_cases hp : p.1 = k
    · have h2 : ¬(p.1 = k') := by rw [hp]; exact h1
      simp only [setField, if_pos hp, getVal, if_neg h1, if_neg h2]
    · simp only [setField, if_neg hp, getVal]
      by_cases hp' : p.1 = k'
      · simp [hp']
      · simp [hp', ih]

theorem setField_setField (r : Record) (k : String) (v w : Val) :
    setField (setField r k v) k w = setField r k w := by
  induction r with
  | nil => simp [setField]
  | cons p rest ih =>
    by_cases h : p.1 = k
    · simp [setField, h]
    · simp [setField, h, ih]

theorem mem_keys_setField (r : Record) (k : String) (v : Val) :
    k ∈ (setField r k v).map Prod.fst := by
  induction r with
  | nil => simp [setField]
  | cons p rest ih =>
    by_cases h : p.1 = k
    · simp [setField, h]
    · simp only [setField, if_neg h, List.map_cons, List.mem_cons]
      exact Or.inr ih

/-! ### Lemmas: the code-point order -/

theorem char_toNat_inj {a b : Char} (h : a.toNat = b.toNat) : a = b :=
  Char.ext (UInt32.ext h)

theorem charListLe_refl (l : List Char) : charListLe l l = true := by
  induction l with
  | nil => rfl
  | cons a l ih => simp [charListLe, ih]

theorem charListLe_total (l₁ l₂ : List Char) :
    charListLe l₁ l₂ = true ∨ charListLe l₂ l₁ = true := by
  induction l₁ generalizing l₂ with
  | nil => left; rfl
  | cons a as ih =>
    cases l₂ with
    | nil => right; rfl
    | cons b bs =>
      by_cases hab : a = b
      · subst hab
        simpa [charListLe] using ih bs
      · have hne : a.toNat ≠ b.toNat := fun h => hab (char_toNat_inj h)
        have hba : ¬(b = a) := fun hh => hab hh.symm
        rcases Nat.lt_or_ge a.toNat b.toNat with h | h
        · left; simp [charListLe, hab, Nat.blt_eq, h]
        · right
          have hlt : b.toNat < a.toNat := lt_of_le_of_ne h (Ne.symm hne)
          simp [charListLe, hba, Nat.blt_eq, hlt]

theorem charListLe_trans {l₁ l₂ l₃ : List Char} (h₁ : charListLe l₁ l₂ = true)
    (h₂ : charListLe l₂ l₃ = true) : charListLe l₁ l₃ = true := by
  induction l₁ generalizing l₂ l₃ with
  | nil => rfl
  | cons a as ih =>
    cases l₂ with
    | nil => simp [charListLe] at h₁
    | cons b bs =>
      cases l₃ with
      | nil => simp [charListLe] at h₂
      | cons c cs =>
        by_cases hab : a = b <;> by_cases hbc : b = c
        · subst hab; subst hbc
          simp only [charListLe, if_pos rfl] at h₁ h₂ ⊢
          exact ih h₁ h₂
        · subst hab
          simp only [charListLe, if_pos rfl] at h₁
          simp only [charListLe, if_neg hbc] at h₂
          simp [charListLe, hbc, h₂]
        · subst hbc
          simp only [charListLe, if_neg hab] at h₁
          simp [charListLe, hab, h₁]
        · simp only [charListLe, if_neg hab] at h₁
          simp only [charListLe, if_neg hbc] at h₂
          rw [Nat.blt_eq] at h₁ h₂
          have hac : a.toNat < c.toNat := h₁.trans h₂
          have hne : a ≠ c := fun h => absurd (h ▸ hac) (lt_irrefl _)
          simp [charListLe, hne, Nat.blt_eq, hac]

theorem charListLe_antisymm {l₁ l₂ : List Char} (h₁ : charListLe l₁ l₂ = true)
    (h₂ : charListLe l₂ l₁ = true) : l₁ = l₂ := by
  induction l₁ generalizing l₂ with
  | nil =>
    cases l₂ with
    | nil => rfl
    | cons b bs => simp [charListLe] at h₂
  | cons a as ih =>
    cases l₂ with
    | nil => simp [charListLe] at h₁
    | cons b bs =>
      by_cases hab : a = b
      · subst hab
        simp only [charListLe, if_pos rfl] at h₁ h₂
        rw [ih h₁ h₂]
      · have hba : ¬(b = a) := fun hh => hab hh.symm
        simp only [charListLe, if_neg hab] at h₁
        simp only [charListLe, if_neg hba] at h₂
        rw [Nat.blt_eq] at h₁ h₂
        exact absurd (h₁.trans h₂) (lt_irrefl _)

theorem strLeB_refl (s : String) : strLeB s s = true := charListLe_refl s.data

theorem strLeB_total (s t : String) : strLeB s t = true ∨ strLeB t s = true :=
  charListLe_total s.data t.data

theorem strLeB_trans {s t u : String} (h₁ : strLeB s t = true) (h₂ : strLeB t u = true) :
    strLeB s u = true := charListLe_trans h₁ h₂

theorem strLeB_antisymm {s t : String} (h₁ : strLeB s t = true) (h₂ : strLeB t s = true) :
    s = t := by
  cases s with
  | mk d₁ =>
    cases t with
    | mk d₂ =>
      have : d₁ = d₂ := charListLe_antisymm h₁ h₂
      rw [this]

instance strLeBIsTotal : IsTotal String (fun a b => strLeB a b = true) := ⟨strLeB_total⟩

instance strLeBIsTrans : IsTrans String (fun a b => strLeB a b = true) :=
  ⟨fun _ _ _ => strLeB_trans⟩

instance strLeBIsAntisymm : IsAntisymm String (fun a b => strLeB a b = true) :=
  ⟨fun _ _ => strLeB_antisymm⟩

instance catLeIsTotal : IsTotal Record (fun r1 r2 => strLeB (catKey r1) (catKey r2) = true) :=
  ⟨fun a b => strLeB_total (catKey a) (catKey b)⟩

instance catLeIsTrans : IsTrans Record (fun r1 r2 => strLeB (catKey r1) (catKey r2) = true) :=
  ⟨fun _ _ _ => strLeB_trans⟩

/-! ### Lemmas: the keep-last dedup -/

theorem mem_of_mem_dropDupLast (key : Record → Val) :
    ∀ l r, r ∈ dropDupLast key l → r ∈ l := by
  intro l
  induction l with
  | nil => intro r h; simp [dropDupLast] at h
  | cons a l ih =>
    intro r h
    simp only [dropDupLast] at h
    by_cases hc : l.any (fun x => decide (key x = key a)) = true
    · rw [if_pos hc] at h
      exact List.mem_cons_of_mem a (ih r h)
    · rw [if_neg hc] at h
      rcases List.mem_cons.mp h with h | h
      · exact h ▸ List.mem_cons_self a l
      · exact List.mem_cons_of_mem a (ih r h)

theorem dropDupLast_covers (key : Record → Val) :
    ∀ l r, r ∈ l → ∃ r', r' ∈ dropDupLast key l ∧ key r' = key r := by
  intro l
  induction l with
  | nil => intro r h; simp at h
  | cons a l ih =>
    intro r h
    by_cases hc : l.any (fun x => decide (key x = key a)) = true
    · simp only [dropDupLast, if_pos hc]
      rcases List.mem_cons.mp h with h | h
      · rcases List.any_eq_true.mp hc with ⟨x, hx, hkx⟩
        rcases ih x hx with ⟨r', hr', hk⟩
        exact ⟨r', hr', hk.trans ((of_decide_eq_true hkx).trans (congrArg key h.symm))⟩
      · exact ih r h
    · simp only [dropDupLast, if_neg hc]
      rcases List.mem_cons.mp h with h | h
      · exact ⟨a, List.mem_cons_self _ _, congrArg key h.symm⟩
      · rcases ih r h with ⟨r', hr', hk⟩
        exact ⟨r', List.mem_cons_of_mem a hr', hk⟩

theorem dropDupLast_pairwise (key : Record → Val) :
    ∀ l, (dropDupLast key l).Pairwise (fun a b => key a ≠ key b) := by
  intro l
  induction l with
  | nil => simp [dropDupLast]
  | cons a l ih =>
    by_cases hc : l.any (fun x => decide (key x = key a)) = true
    · rw [dropDupLast, if_pos hc]; exact ih
    · rw [dropDupLast, if_neg hc]
      refine List.Pairwise.cons ?_ ih
      intro b hb hk
      apply hc
      refine List.any_eq_true.mpr ⟨b, mem_of_mem_dropDupLast key l b hb, ?_⟩
      exact decide_eq_true hk.symm

theorem dropDupLast_max (l : List Record)
    (hs : l.Pairwise (fun r1 r2 => strLeB (catKey r1) (catKey r2) = true)) :
    ∀ r', r' ∈ dropDupLast skuOf l → ∀ r, r ∈ l → skuOf r = skuOf r' →
      strLeB (catKey r) (catKey r') = true := by
  induction l with
  | nil => intro r' h; simp [dropDupLast] at h
  | cons a l ih =>
    have hhead : ∀ x ∈ l, strLeB (catKey a) (catKey x) = true :=
      fun x hx => List.rel_of_pairwise_cons hs hx
    have htail := List.Pairwise.of_cons hs
    intro r' hr' r hr hk
    by_cases hc : l.any (fun x => decide (skuOf x = skuOf a)) = true
    · rw [dropDupLast, if_pos hc] at hr'
      rcases List.mem_cons.mp hr with h | h
      · exact h ▸ hhead r' (mem_of_mem_dropDupLast skuOf l r' hr')
      · exact ih htail r' hr' r h hk
    · rw [dropDupLast, if_neg hc] at hr'
      rcases List.mem_cons.mp hr' with h' | h'
      · subst h'
        rcases List.mem_cons.mp hr with h | h
        · rw [h]; exact strLeB_refl _
        · exact absurd (List.any_eq_true.mpr ⟨r, h, decide_eq_true hk⟩) hc
      · rcases List.mem_cons.mp hr with h | h
        · exact h ▸ hhead r' (mem_of_mem_dropDupLast skuOf l r' h')
        · exact ih htail r' h' r h hk

/-! ### Lemmas: the category sort -/

theorem sortByCategory_perm (rows : List Record) : (sortByCategory rows).Perm rows :=
  List.perm_insertionSort _ rows

theorem sortByCategory_sorted (rows : List Record) :
    (sortByCategory rows).Pairwise (fun r1 r2 => strLeB (catKey r1) (catKey r2) = true) :=
  List.sorted_insertionSort _ rows

/-! ### Lemmas: column-set construction -/

theorem mem_addKeys_left {c : String} (acc ks : List String) (h : c ∈ acc) :
    c ∈ addKeys acc ks := by
  induction ks generalizing acc with
  | nil => simpa [addKeys] using h
  | cons k ks ih =>
    by_cases hk : k ∈ acc
    · simpa [addKeys, if_pos hk] using ih acc h
    · simp only [addKeys, if_neg hk]
      exact ih (acc ++ [k]) (List.mem_append_left _ h)

theorem mem_addKeys_right {c : String} (acc ks : List String) (h : c ∈ ks) :
    c ∈ addKeys acc ks := by
  induction ks generalizing acc with
  | nil => simp at h
  | cons k ks ih =>
    rcases List.mem_cons.mp h with h | h
    · subst h
      by_cases hk : c ∈ acc
      · simp only [addKeys, if_pos hk]
        exact mem_addKeys_left acc ks hk
      · simp only [addKeys, if_neg hk]
        exact mem_addKeys_left _ ks (List.mem_append_right _ (List.mem_singleton.mpr rfl))
    · by_cases hk : k ∈ acc
      · simp only [addKeys, if_pos hk]
        exact ih acc h
      · simp only [addKeys, if_neg hk]
        exact ih _ h

theorem mem_unionKeys_aux {c : String} :
    ∀ (recs : List Record) (acc : List String),
      (c ∈ acc ∨ ∃ r, r ∈ recs ∧ c ∈ r.map Prod.fst) →
      c ∈ recs.foldl (fun a r => addKeys a (r.map Prod.fst)) acc := by
  intro recs
  induction recs with
  | nil =>
    intro acc h
    rcases h with h | ⟨r, hr, _⟩
    · simpa using h
    · simp at hr
  | cons a recs ih =>
    intro acc h
    simp only [List.foldl_cons]
    rcases h with h | ⟨r, hr, hc⟩
    · exact ih _ (Or.inl (mem_addKeys_left _ _ h))
    · rcases List.mem_cons.mp hr with h | h
      · exact ih _ (Or.inl (mem_addKeys_right _ _ (h ▸ hc)))
      · exact ih _ (Or.inr ⟨r, h, hc⟩)

theorem mem_unionKeys {c : String} {recs : List Record} {r : Record}
    (hr : r ∈ recs) (hc : c ∈ r.map Prod.fst) : c ∈ unionKeys recs :=
  mem_unionKeys_aux recs [] (Or.inr ⟨r, hr, hc⟩)

/-! ### Lemmas: projection and rename -/

theorem getVal_projectRow (r : Record) (c : String) (hc : c ∈ requiredColumns) :
    getVal (projectRow requiredColumns r) c = getVal r c := by
  simp only [requiredColumns] at hc
  fin_cases hc <;> rfl

theorem getVal_renameRec_cat (r : Record) :
    getVal (renameRec r) "category" = getVal r "category" := by
  induction r with
  | nil => rfl
  | cons p rest ih =>
    have hrk : renameKey p.1 = "category" ↔ p.1 = "category" := by
      constructor
      · intro hh
        rw [renameKey] at hh
        by_cases hid : p.1 = "id"
        · rw [if_pos hid] at hh; exact absurd hh (by decide)
        · rwa [if_neg hid] at hh
      · intro hh; rw [hh]; rfl
    have hcons : renameRec (p :: rest) = (renameKey p.1, p.2) :: renameRec rest := rfl
    rw [hcons]
    simp only [getVal]
    by_cases hp : p.1 = "category"
    · rw [if_pos (hrk.mpr hp), if_pos hp]
    · rw [if_neg (fun hh => hp (hrk.mp hh)), if_neg hp]
      exact ih

/-! ### Lemmas: the required-column loop -/

theorem addMissing_exists (cols : List String) (rows : List Record) (log : List String)
    (hsku : "sku" ∈ cols) (hcat : "category" ∈ cols) :
    ∃ g : Record → Record,
      (addMissing (cols, rows, log)).2.1 = rows.map g ∧
      ∀ r k, k ≠ "name" → k ≠ "brand" → getVal (g r) k = getVal r k := by
  by_cases hn : "name" ∈ cols <;> by_cases hb : "brand" ∈ cols
  · have e4 : "category" ∈ cols := hcat
    refine ⟨id, ?_, ?_⟩
    · simp [addMissing, requiredColumns, addCol, hsku, hn, hb, e4]
    · intro r k _ _; rfl
  · have hb3 : "brand" ∉ cols := hb
    have e4 : "category" ∈ cols ++ ["brand"] := List.mem_append_left _ hcat
    refine ⟨fun r => setField r "brand" (.vstr ""), ?_, ?_⟩
    · simp [addMissing, requiredColumns, addCol, hsku, hn, hb3, e4]
    · intro r k _ hk
      exact getVal_setField_other r "brand" k _ hk
  · have e3 : "brand" ∈ cols ++ ["name"] := List.mem_append_left _ hb
    have e4 : "category" ∈ cols ++ ["name"] := List.mem_append_left _ hcat
    refine ⟨fun r => setField r "name" (.vstr ""), ?_, ?_⟩
    · simp [addMissing, requiredColumns, addCol, hsku, hn, e3, e4]
    · intro r k hk _
      exact getVal_setField_other r "name" k _ hk
  · have e3 : "brand" ∉ cols ++ ["name"] := by
      intro hmem
      rcases List.mem_append.mp hmem with h | h
      · exact hb h
      · exact absurd (List.mem_singleton.mp h) (by decide)
    have e4 : "category" ∈ (cols ++ ["name"]) ++ ["brand"] :=
      List.mem_append_left _ (List.mem_append_left _ hcat)
    refine ⟨fun r => setField (setField r "name" (.vstr "")) "brand" (.vstr ""), ?_, ?_⟩
    · simp [addMissing, requiredColumns, addCol, hsku, hn, hcat, e3, e4, List.map_map,
        Function.comp_def]
    · intro r k hk hk'
      rw [getVal_setField_other _ "brand" k _ hk', getVal_setField_other _ "name" k _ hk]

theorem addMissing_absent (cols : List String) (rows : List Record) (log : List String)
    (hsku : "sku" ∈ cols) (hcat : "category" ∈ cols) (col : String)
    (hcol : col = "name" ∨ col = "brand") (habs : col ∉ cols) :
    (∀ r ∈ (addMissing (cols, rows, log)).2.1, getVal r col = .vstr "") ∧
      warnMissing col ∈ (addMissing (cols, rows, log)).2.2 := by
  rcases hcol with hc | hc <;> subst hc
  · by_cases hb : "brand" ∈ cols
    · have e3 : "brand" ∈ cols ++ ["name"] := List.mem_append_left _ hb
      have e4 : "category" ∈ cols ++ ["name"] := List.mem_append_left _ hcat
      constructor
      · intro r hr
        simp only [addMissing, requiredColumns, List.foldl_cons, List.foldl_nil, addCol,
          if_pos hsku, if_neg habs, if_pos e3, if_pos e4] at hr
        rcases List.mem_map.mp hr with ⟨r₀, _, hr₀⟩
        rw [← hr₀, getVal_setField_same]
      · simp [addMissing, requiredColumns, addCol, hsku, habs, e3, e4]
    · have e3 : "brand" ∉ cols ++ ["name"] := by
        intro hmem
        rcases List.mem_append.mp hmem with h | h
        · exact hb h
        · exact absurd (List.mem_singleton.mp h) (by decide)
      have e4 : "category" ∈ (cols ++ ["name"]) ++ ["brand"] :=
        List.mem_append_left _ (List.mem_append_left _ hcat)
      constructor
      · intro r hr
        simp only [addMissing, requiredColumns, List.foldl_cons, List.foldl_nil, addCol,
          if_pos hsku, if_neg habs, if_neg e3, if_pos e4] at hr
        rcases List.mem_map.mp hr with ⟨r₁, hr₁, hback⟩
        rcases List.mem_map.mp hr₁ with ⟨r₀, _, hr₀⟩
        rw [← hback, getVal_setField_other _ "brand" "name" _ (by decide), ← hr₀,
          getVal_setField_same]
      · simp [addMissing, requiredColumns, addCol, hsku, hcat, habs, e3, e4]
  · by_cases hn : "name" ∈ cols
    · have e4 : "category" ∈ cols ++ ["brand"] := List.mem_append_left _ hcat
      constructor
      · intro r hr
        simp only [addMissing, requiredColumns, List.foldl_cons, List.foldl_nil, addCol,
          if_pos hsku, if_pos hn, if_neg habs, if_pos e4] at hr
        rcases List.mem_map.mp hr with ⟨r₀, _, hr₀⟩
        rw [← hr₀, getVal_setField_same]
      · simp [addMissing, requiredColumns, addCol, hsku, hn, habs, e4]
    · have e3 : "brand" ∉ cols ++ ["name"] := by
        intro hmem
        rcases List.mem_append.mp hmem with h | h
        · exact habs h
        · exact absurd (List.mem_singleton.mp h) (by decide)
      have e4 : "category" ∈ (cols ++ ["name"]) ++ ["brand"] :=
        List.mem_append_left _ (List.mem_append_left _ hcat)
      constructor
      · intro r hr
        simp only [addMissing, requiredColumns, List.foldl_cons, List.foldl_nil, addCol,
          if_pos hsku, if_neg hn, if_neg e3, if_pos e4] at hr
        rcases List.mem_map.mp hr with ⟨r₁, _, hback⟩
        rw [← hback, getVal_setField_same]
      · simp [addMissing, requiredColumns, addCol, hsku, hcat, hn, habs, e3, e4]

/-! ### Lemmas: mergeCore branches -/

theorem mergeCore_ok (recs : List Record) (df : DataFrame)
    (h : (mergeCore recs).1 = .ok df) :
    "category" ∈ (renamedState recs).1 ∧ "sku" ∈ (renamedState recs).1 ∧
      df = ⟨requiredColumns,
        (addMissing ((renamedState recs).1,
          dropDupLast skuOf (sortByCategory (renamedState recs).2), [])).2.1.map
          (projectRow requiredColumns)⟩ := by
  by_cases h1 : "category" ∈ (renamedState recs).1
  · by_cases h2 : "sku" ∈ (renamedState recs).1
    · refine ⟨h1, h2, ?_⟩
      simp only [mergeCore, if_pos h1, if_pos h2, Except.ok.injEq] at h
      exact h.symm
    · simp only [mergeCore, if_pos h1, if_neg h2] at h
      exact absurd h (by simp)
  · simp only [mergeCore, if_neg h1] at h
    exact absurd h (by simp)

theorem mergeCore_err_cat {recs : List Record}
    (h1 : "category" ∉ (renamedState recs).1) :
    (mergeCore recs).1 = .error "KeyError: category" := by
  simp only [mergeCore, if_neg h1]

theorem mergeCore_err_sku {recs : List Record}
    (h1 : "category" ∈ (renamedState recs).1) (h2 : "sku" ∉ (renamedState recs).1) :
    (mergeCore recs).1 = .error "KeyError: sku" := by
  simp only [mergeCore, if_pos h1, if_neg h2]

/-! ### Lemmas: renamed column set -/

theorem renamed_not_mem {recs : List Record} {col : String}
    (hcol : col = "name" ∨ col = "brand") (h : col ∉ unionKeys recs) :
    col ∉ (renamedState recs).1 := by
  simp only [renamedState]
  by_cases hc : "id" ∈ unionKeys recs ∧ "sku" ∉ unionKeys recs
  · rw [if_pos hc]
    intro hmem
    rcases List.mem_map.mp hmem with ⟨k, hk, hkey⟩
    rw [renameKey] at hkey
    by_cases hid : k = "id"
    · rw [if_pos hid] at hkey
      rcases hcol with h' | h' <;> (rw [h'] at hkey; exact absurd hkey (by decide))
    · rw [if_neg hid] at hkey
      exact h (hkey ▸ hk)
  · rw [if_neg hc]
    exact h

theorem mem_renamed_of_mem {recs : List Record} {col : String} (hid : col ≠ "id")
    (h : col ∈ unionKeys recs) : col ∈ (renamedState recs).1 := by
  simp only [renamedState]
  by_cases hc : "id" ∈ unionKeys recs ∧ "sku" ∉ unionKeys recs
  · rw [if_pos hc]
    exact List.mem_map.mpr ⟨col, h, by rw [renameKey, if_neg hid]⟩
  · rw [if_neg hc]
    exact h

theorem cat_mem_renamed {recs : List Record}
    (h : ∃ r ∈ recs, "category" ∈ r.map Prod.fst) :
    "category" ∈ (renamedState recs).1 := by
  rcases h with ⟨r, hr, hc⟩
  exact mem_renamed_of_mem (by decide) (mem_unionKeys hr hc)

theorem agg_has_category {fs : List FileInput} {r : Record} (hr : r ∈ aggRecords fs) :
    "category" ∈ r.map Prod.fst := by
  rcases List.mem_flatMap.mp hr with ⟨f, _, hrf⟩
  rw [taggedRecords] at hrf
  cases hcont : f.content with
  | none => rw [hcont] at hrf; simp at hrf
  | some data =>
    rw [hcont] at hrf
    rcases List.mem_map.mp hrf with ⟨r₀, _, hr₀⟩
    exact hr₀ ▸ mem_keys_setField r₀ "category" _

theorem agg_category_val {fs : List FileInput} {r : Record} (hr : r ∈ aggRecords fs) :
    ∃ f ∈ fs, getVal r "category" = .vstr (categoryOfPath f.path) := by
  rcases List.mem_flatMap.mp hr with ⟨f, hf, hrf⟩
  refine ⟨f, hf, ?_⟩
  rw [taggedRecords] at hrf
  cases hcont : f.content with
  | none => rw [hcont] at hrf; simp at hrf
  | some data =>
    rw [hcont] at hrf
    rcases List.mem_map.mp hrf with ⟨r₀, _, hr₀⟩
    rw [← hr₀, getVal_setField_same]


theorem pySorted_sorted (l : List String) :
    (pySorted l).Pairwise (fun a b => strLeB a b = true) :=
  List.sorted_insertionSort _ l

theorem pySorted_congr {l l' : List String} (h : l.Perm l') : pySorted l = pySorted l' :=
  List.eq_of_perm_of_sorted
    (((List.perm_insertionSort _ l).trans h).trans (List.perm_insertionSort _ l').symm)
    (pySorted_sorted l) (pySorted_sorted l')


/-! ### Lemmas: the join stage -/

theorem astypeStr_idem (df : DataFrame) (c : String) :
    astypeStr (astypeStr df c) c = astypeStr df c := by
  simp only [astypeStr, List.map_map]
  refine congrArg (DataFrame.mk df.columns) (List.map_congr_left ?_)
  intro r _
  simp only [Function.comp_apply]
  rw [getVal_setField_same]
  show setField _ c (.vstr (pyStr (getVal r c))) = _
  rw [setField_setField]

theorem joinCsv_state (m i : DataFrame) :
    (joinCsvFiles m i).2.1 = if "sku" ∈ m.columns then astypeStr m "sku" else m := by
  simp only [joinCsvFiles]
  split <;> split <;> split <;> rfl

theorem filter_key_len_le_one {l : List Record} {rk : String}
    (h : l.Pairwise fun a b => getVal a rk ≠ getVal b rk) (x : Val) :
    (l.filter fun rr => decide (getVal rr rk = x)).length ≤ 1 := by
  induction l with
  | nil => simp
  | cons a l ih =>
    have hhead : ∀ b ∈ l, getVal a rk ≠ getVal b rk :=
      fun b hb => List.rel_of_pairwise_cons h hb
    have htail := List.Pairwise.of_cons h
    by_cases ha : getVal a rk = x
    · rw [@List.filter_cons_of_pos _ (fun rr => decide (getVal rr rk = x)) a l
        (decide_eq_true ha)]
      have hnil : l.filter (fun rr => decide (getVal rr rk = x)) = [] := by
        refine List.filter_eq_nil_iff.mpr ?_
        intro b hb hbx
        exact hhead b hb (ha.trans (of_decide_eq_true hbx).symm)
      rw [hnil]
      exact Nat.le_refl 1
    · rw [@List.filter_cons_of_neg _ (fun rr => decide (getVal rr rk = x)) a l
        (by simpa using ha)]
      exact ih htail

theorem leftMerge_length (ldf rdf : DataFrame) (lk rk : String)
    (h : rdf.rows.Pairwise fun a b => getVal a rk ≠ getVal b rk) :
    (leftMerge ldf rdf lk rk).rows.length = ldf.rows.length := by
  show (ldf.rows.flatMap _).length = _
  generalize ldf.rows = L
  induction L with
  | nil => rfl
  | cons lr L ih =>
    rw [List.flatMap_cons, List.length_append, ih]
    have hle := filter_key_len_le_one h (getVal lr lk)
    cases hfe : rdf.rows.filter (fun rr => decide (getVal rr rk = getVal lr lk)) with
    | nil =>
      simp only [hfe]
      simp only [List.length_cons, List.length_nil]
      omega
    | cons c ms =>
      rw [hfe] at hle
      cases ms with
      | nil =>
        simp only [hfe]
        simp only [List.map_cons, List.map_nil, List.length_cons, List.length_nil]
        omega
      | cons d ms2 => simp at hle

theorem forall₂_map_self {α : Type} {R : α → α → Prop} (f : α → α) (l : List α)
    (h : ∀ x ∈ l, R x (f x)) : List.Forall₂ R l (l.map f) := by
  induction l with
  | nil => exact List.Forall₂.nil
  | cons a l ih =>
    exact List.Forall₂.cons (h a (List.mem_cons_self a l))
      (ih fun x hx => h x (List.mem_cons_of_mem a hx))

/-! ### Lemmas: mergeJsonFiles decomposition -/

theorem mergeJsonFiles_fst (fs : List FileInput) :
    (mergeJsonFiles fs).1 = (mergeCore (aggRecords fs)).1 := rfl

theorem mergeJsonFiles_snd (fs : List FileInput) :
    (mergeJsonFiles fs).2 = mergeLogs fs ++ (mergeCore (aggRecords fs)).2 := rfl

theorem mergeCore_snd_ok {recs : List Record}
    (h1 : "category" ∈ (renamedState recs).1) (h2 : "sku" ∈ (renamedState recs).1) :
    (mergeCore recs).2 =
      (addMissing ((renamedState recs).1,
        dropDupLast skuOf (sortByCategory (renamedState recs).2), [])).2.2 := by
  simp only [mergeCore, if_pos h1, if_pos h2]

theorem renamed_rows_cat {recs : List Record} {r : Record}
    (hr : r ∈ (renamedState recs).2) :
    ∃ r₀ ∈ recs, getVal r "category" = getVal r₀ "category" := by
  simp only [renamedState] at hr
  by_cases hc : "id" ∈ unionKeys recs ∧ "sku" ∉ unionKeys recs
  · rw [if_pos hc] at hr
    rcases List.mem_map.mp hr with ⟨r₀, h₀, hback⟩
    exact ⟨r₀, h₀, hback ▸ getVal_renameRec_cat r₀⟩
  · rw [if_neg hc] at hr
    exact ⟨r, hr, rfl⟩



/-! ### The claims -/

/-- Claim C2 (counterexample): with an aggregate of zero records (the
only input file fails to parse), `merge_json_files` does not return an
empty four-column table: the `sort_values` call raises a KeyError on the
missing `category` column. -/
theorem claim_C2_cx :
    (mergeJsonFiles [⟨"a.json", none⟩]).1 = .error "KeyError: category" := rfl

/-- Claim C2 (amended): whenever the aggregate record collection is
empty, `merge_json_files` raises a KeyError about the missing `category`
column instead of returning a zero-row four-column table. -/
theorem claim_C2_amended (fs : List FileInput) (h : aggRecords fs = []) :
    (mergeJsonFiles fs).1 = .error "KeyError: category" := by
  rw [mergeJsonFiles_fst, h]
  rfl

/-- Witness for the amended claim C2 at a concrete failing file list. -/
theorem claim_C2_amended_witness :
    (mergeJsonFiles [⟨"a.json", none⟩, ⟨"b.json", none⟩]).1 =
      .error "KeyError: category" :=
  claim_C2_amended [⟨"a.json", none⟩, ⟨"b.json", none⟩] rfl

/-- Claim C3 (counterexample): with records lacking both `sku` and `id`,
`merge_json_files` raises a KeyError at the `drop_duplicates` step rather
than synthesizing an empty `sku` column. -/
theorem claim_C3_cx :
    (mergeJsonFiles [⟨"a.json", some [[("name", .vstr "W")]]⟩]).1 =
      .error "KeyError: sku" := rfl

/-- Claim C3 (amended): the empty-string synthesis with a diagnostic does
hold for `name` and `brand` (and `category` is always present once any
record exists), but when `sku` is absent from every record (and no `id`
rename applies) the dedup step raises a KeyError before the synthesis
loop is reached. -/
theorem claim_C3_amended :
    (∀ fs df col, (mergeJsonFiles fs).1 = .ok df → (col = "name" ∨ col = "brand") →
      col ∉ unionKeys (aggRecords fs) →
      (∀ r ∈ df.rows, getVal r col = .vstr "") ∧
        warnMissing col ∈ (mergeJsonFiles fs).2) ∧
    (∀ fs, aggRecords fs ≠ [] → "sku" ∉ (renamedState (aggRecords fs)).1 →
      (mergeJsonFiles fs).1 = .error "KeyError: sku") := by
  constructor
  · intro fs df col hok hcol habs
    rw [mergeJsonFiles_fst] at hok
    obtain ⟨hcat, hsku, hdf⟩ := mergeCore_ok _ _ hok
    have habs' : col ∉ (renamedState (aggRecords fs)).1 := renamed_not_mem hcol habs
    have hcolreq : col ∈ requiredColumns := by
      rcases hcol with h | h <;> (rw [h]; simp [requiredColumns])
    obtain ⟨hrows, hlog⟩ := addMissing_absent _
      (dropDupLast skuOf (sortByCategory (renamedState (aggRecords fs)).2)) [] hsku hcat
      col hcol habs'
    constructor
    · intro r hr
      rw [hdf] at hr
      rcases List.mem_map.mp hr with ⟨r₀, hr₀, hback⟩
      rw [← hback, getVal_projectRow _ _ hcolreq]
      exact hrows r₀ hr₀
    · rw [mergeJsonFiles_snd, mergeCore_snd_ok hcat hsku]
      exact List.mem_append_right _ hlog
  · intro fs hne hsku
    rw [mergeJsonFiles_fst]
    rcases List.exists_mem_of_ne_nil _ hne with ⟨r, hr⟩
    exact mergeCore_err_sku (cat_mem_renamed ⟨r, hr, agg_has_category hr⟩) hsku

/-- Witness for the amended claim C3: a file whose records carry only a
`sku` gets empty `brand` cells and the brand warning. -/
theorem claim_C3_amended_witness :
    (∀ r ∈ ([[("sku", Val.vint 1), ("name", Val.vstr ""), ("brand", Val.vstr ""),
        ("category", Val.vstr "a")]] : List Record), getVal r "brand" = .vstr "") ∧
      warnMissing "brand" ∈ (mergeJsonFiles [⟨"a.json", some [[("sku", .vint 1)]]⟩]).2 := by
  have h := claim_C3_amended.1 [⟨"a.json", some [[("sku", .vint 1)]]⟩]
    ⟨["sku", "name", "brand", "category"],
     [[("sku", Val.vint 1), ("name", Val.vstr ""), ("brand", Val.vstr ""),
       ("category", Val.vstr "a")]]⟩
    "brand" rfl (Or.inr rfl) (by decide)
  exact h

/-- Claim C4 (counterexample): with an external frame having no SKU-like
column, `join_csv_files` does not produce an all-null join result: the
`pd.merge` call raises a KeyError for the absent `product_sku` key. -/
theorem claim_C4_cx : (joinCsvFiles m9 i4).1 = .error "KeyError" := rfl

/-- Claim C4 (amended): when the external CSV has no `product_sku` column
and no column containing `sku` case-insensitively, `join_csv_files` emits
the warning and the available-column listing, and then the merge call
raises a KeyError on the absent `product_sku` key instead of returning an
all-null join. -/
theorem claim_C4_amended (m i : DataFrame)
    (h : ∀ c ∈ i.columns, strHasSub (lowerStr c) "sku" = false) :
    (joinCsvFiles m i).1 = .error "KeyError" ∧
    "Warning: product_sku column not found in input.csv" ∈ (joinCsvFiles m i).2.2 ∧
    ("Available columns: " ++ joinComma i.columns) ∈ (joinCsvFiles m i).2.2 := by
  have hps : "product_sku" ∉ i.columns := by
    intro hmem
    have ht : strHasSub (lowerStr "product_sku") "sku" = true := by decide
    rw [h _ hmem] at ht
    exact Bool.false_ne_true ht
  have hfil : i.columns.filter (fun c => strHasSub (lowerStr c) "sku") = [] :=
    List.filter_eq_nil_iff.mpr (fun c hc => by simp [h c hc])
  have hrc : resolveJoinCol i.columns = ("product_sku",
      ["Warning: product_sku column not found in input.csv",
       "Available columns: " ++ joinComma i.columns]) := by
    rw [resolveJoinCol, if_neg hps, hfil]
  have hcond : ¬("product_sku" ∈ i.columns ∧
      "sku" ∈ (if "sku" ∈ m.columns then astypeStr m "sku" else m).columns) :=
    fun hc => hps hc.1
  simp only [joinCsvFiles, hrc, if_neg hps, if_neg hcond]
  exact ⟨trivial, by simp, by simp⟩

/-- Witness for the amended claim C4 at a concrete external frame with
columns `store, qty`. -/
theorem claim_C4_amended_witness :
    (joinCsvFiles m9 i4).1 = .error "KeyError" ∧
    "Warning: product_sku column not found in input.csv" ∈ (joinCsvFiles m9 i4).2.2 ∧
    ("Available columns: " ++ joinComma i4.columns) ∈ (joinCsvFiles m9 i4).2.2 :=
  claim_C4_amended m9 i4 (by decide)

/-- Claim C6: a file whose read or parse fails contributes no records —
the merge result is the same as if the file were not in the list — a
diagnostic naming the file is printed, and the run continues (no error
is raised because of that file). -/
theorem claim_C6 (fs1 fs2 : List FileInput) (p : String) :
    (mergeJsonFiles (fs1 ++ ⟨p, none⟩ :: fs2)).1 = (mergeJsonFiles (fs1 ++ fs2)).1 ∧
    ("Error processing " ++ p) ∈ (mergeJsonFiles (fs1 ++ ⟨p, none⟩ :: fs2)).2 := by
  constructor
  · rw [mergeJsonFiles_fst, mergeJsonFiles_fst]
    have hagg : aggRecords (fs1 ++ ⟨p, none⟩ :: fs2) = aggRecords (fs1 ++ fs2) := by
      simp [aggRecords, List.flatMap_append, List.flatMap_cons, taggedRecords]
    rw [hagg]
  · rw [mergeJsonFiles_snd]
    apply List.mem_append_left
    have hl : ("Error processing " ++ p) = fileLog ⟨p, none⟩ := rfl
    rw [mergeLogs, hl]
    exact List.mem_map_of_mem _
      (List.mem_append_right _ (List.mem_cons_self _ _))

/-- Claim C8: `find_json_files` warns and returns the empty list when the
base directory is missing; otherwise it returns exactly the
lexicographically sorted list of the `.json` file paths described by the
spec (recursive, excluding `_MACOSX` subtrees and `.DS_Store`); in
particular over two files `b.json`, `a.json` it returns them sorted. -/
theorem claim_C8 :
    (∀ base, findJsonFiles base none =
      ([], ["Warning: Directory " ++ base ++ " does not exist"])) ∧
    (∀ base es, (findJsonFiles base (some es)).1 = pySorted (specPaths base es)) ∧
    (findJsonFiles "d" (some [.file "b.json", .file "a.json"])).1 =
      ["d/a.json", "d/b.json"] := by
  refine ⟨fun base => rfl, fun base es => ?_, ?_⟩
  · exact pySorted_congr (walk_perm base es)
  · simp only [findJsonFiles, walkLevel, walkSubs, jsonHere]
    rfl



/-- Claim C1: after a successful merge, the output has exactly one row
per distinct `sku` value of the pre-dedup rows (every pre-dedup `sku`
survives, every output row comes from a pre-dedup row with the same `sku`
and category, and distinct output rows have distinct `sku`s), and each
category of each kept row is lexicographically greatest among the rows sharing
its `sku`; in particular the `electronics.json`/`home.json` example
merges to the single row `sku=1, name="Y", category="home"`. -/
theorem claim_C1 :
    (∀ fs df, (mergeJsonFiles fs).1 = .ok df →
      (df.rows.Pairwise fun r1 r2 => skuOf r1 ≠ skuOf r2) ∧
      (∀ r ∈ renamedRows fs, ∃ r' ∈ df.rows, skuOf r' = skuOf r) ∧
      (∀ r' ∈ df.rows, ∃ r ∈ renamedRows fs, skuOf r = skuOf r' ∧ catKey r = catKey r') ∧
      (∀ r' ∈ df.rows, ∀ r ∈ renamedRows fs, skuOf r = skuOf r' →
        strLeB (catKey r) (catKey r') = true)) ∧
    (mergeJsonFiles fsC1).1 = .ok dfC1 := by
  constructor
  · intro fs df hok
    rw [mergeJsonFiles_fst] at hok
    obtain ⟨hcat, hsku, hdf⟩ := mergeCore_ok _ _ hok
    obtain ⟨g, hg, hgp⟩ := addMissing_exists ((renamedState (aggRecords fs)).1)
      (dropDupLast skuOf (sortByCategory (renamedState (aggRecords fs)).2)) [] hsku hcat
    have hrows : df.rows =
        (dropDupLast skuOf (sortByCategory (renamedState (aggRecords fs)).2)).map
          (fun r => projectRow requiredColumns (g r)) := by
      rw [hdf]
      show (addMissing _).2.1.map _ = _
      rw [hg, List.map_map]
      rfl
    have hskup : ∀ r, skuOf (projectRow requiredColumns (g r)) = skuOf r := by
      intro r
      show getVal (projectRow requiredColumns (g r)) "sku" = getVal r "sku"
      rw [getVal_projectRow _ _ (by simp [requiredColumns])]
      exact hgp r "sku" (by decide) (by decide)
    have hcatp : ∀ r, catKey (projectRow requiredColumns (g r)) = catKey r := by
      intro r
      show pyStr (getVal _ "category") = pyStr (getVal r "category")
      rw [getVal_projectRow _ _ (by simp [requiredColumns]),
        hgp r "category" (by decide) (by decide)]
    have hmemrows0 : ∀ r : Record,
        r ∈ sortByCategory (renamedState (aggRecords fs)).2 ↔ r ∈ renamedRows fs :=
      fun r => (sortByCategory_perm _).mem_iff
    refine ⟨?_, ?_, ?_, ?_⟩
    · rw [hrows]
      refine List.pairwise_map.mpr ?_
      refine (dropDupLast_pairwise skuOf _).imp ?_
      intro a b hab
      rw [hskup a, hskup b]
      exact hab
    · intro r hr
      obtain ⟨r2, hr2, hk⟩ := dropDupLast_covers skuOf _ r ((hmemrows0 r).mpr hr)
      refine ⟨projectRow requiredColumns (g r2), ?_, ?_⟩
      · rw [hrows]; exact List.mem_map_of_mem _ hr2
      · rw [hskup r2]; exact hk
    · intro r' hr'
      rw [hrows] at hr'
      obtain ⟨r2, hr2, hback⟩ := List.mem_map.mp hr'
      refine ⟨r2, (hmemrows0 r2).mp (mem_of_mem_dropDupLast skuOf _ r2 hr2), ?_, ?_⟩
      · rw [← hback, hskup r2]
      · rw [← hback, hcatp r2]
    · intro r' hr' r hr hk
      rw [hrows] at hr'
      obtain ⟨r2, hr2, hback⟩ := List.mem_map.mp hr'
      have hk2 : skuOf r = skuOf r2 := by rw [hk, ← hback, hskup r2]
      have hmax := dropDupLast_max _ (sortByCategory_sorted _) r2 hr2 r
        ((hmemrows0 r).mpr hr) hk2
      rw [← hback, hcatp r2]
      exact hmax
  · rfl

/-- Witness for claim C1: distinct output `sku`s at the concrete merge. -/
theorem claim_C1_witness :
    dfC1.rows.Pairwise fun r1 r2 => skuOf r1 ≠ skuOf r2 :=
  (claim_C1.1 fsC1 dfC1 rfl).1

/-- Claim C5 (counterexample): the merge stage produces a catalog whose
raw `sku` values are distinct (`"1"` vs `1`), but both coerce to the text
`"1"`, so a 1-row external CSV joins to 2 rows — the joined table does
not always have exactly N rows. -/
theorem claim_C5_cx :
    (mergeJsonFiles c5files).1 = .ok c5cat ∧
    (joinCsvFiles c5cat c5csv).1 = .ok c5joined ∧
    c5csv.rows.length = 1 ∧ c5joined.rows.length = 2 :=
  ⟨rfl, rfl, rfl, rfl⟩

/-- Claim C5 (amended): the joined table has exactly N rows provided the
catalog has `sku` values pairwise distinct in their textual form (the
dedup guarantees distinct raw values, not distinct texts). -/
theorem claim_C5_amended (m i j : DataFrame)
    (hok : (joinCsvFiles m i).1 = .ok j)
    (hdist : m.rows.Pairwise fun r1 r2 =>
      pyStr (getVal r1 "sku") ≠ pyStr (getVal r2 "sku")) :
    j.rows.length = i.rows.length := by
  simp only [joinCsvFiles] at hok
  have hicols : (if (resolveJoinCol i.columns).1 ∈ i.columns then
      astypeStr i (resolveJoinCol i.columns).1 else i).columns = i.columns := by
    split <;> rfl
  rw [hicols] at hok
  by_cases hm : "sku" ∈ m.columns
  · rw [if_pos hm, show (astypeStr m "sku").columns = m.columns from rfl] at hok
    by_cases hin : (resolveJoinCol i.columns).1 ∈ i.columns
    · rw [if_pos (And.intro hin hm), if_pos hin] at hok
      simp only [Except.ok.injEq] at hok
      rw [← hok]
      have hpair : (astypeStr m "sku").rows.Pairwise
          (fun a b => getVal a "sku" ≠ getVal b "sku") := by
        refine List.pairwise_map.mpr (hdist.imp ?_)
        intro a b hab heq
        rw [getVal_setField_same, getVal_setField_same] at heq
        exact hab (by simpa using heq)
      rw [leftMerge_length _ _ _ _ hpair]
      exact List.length_map _ _
    · rw [if_neg (fun hc => hin hc.1)] at hok
      exact absurd hok (by simp)
  · rw [if_neg hm] at hok
    rw [if_neg (fun hc => hm hc.2)] at hok
    exact absurd hok (by simp)

/-- Witness for the amended claim C5 at a 1-row catalog and CSV. -/
theorem claim_C5_amended_witness : j7.rows.length = csv7.rows.length :=
  claim_C5_amended cat7 csv7 j7 rfl (List.pairwise_singleton _ _)

/-- Claim C7: the join compares keys by text, so replacing the catalog
`sku` cells by their textual forms beforehand changes nothing, and a
catalog `sku` stored as the string `"100"` joins against an external key
stored as the integer `100`, attaching the catalog columns. -/
theorem claim_C7 :
    (∀ m i, "sku" ∈ m.columns →
      joinCsvFiles (astypeStr m "sku") i = joinCsvFiles m i) ∧
    (joinCsvFiles cat7 csv7).1 = .ok j7 := by
  constructor
  · intro m i h
    have hc : (astypeStr m "sku").columns = m.columns := rfl
    simp only [joinCsvFiles, hc, if_pos h, astypeStr_idem]
  · rfl

/-- Witness for claim C7 at the concrete string-keyed catalog. -/
theorem claim_C7_witness :
    joinCsvFiles (astypeStr cat7 "sku") csv7 = joinCsvFiles cat7 csv7 :=
  claim_C7.1 cat7 csv7 (by decide)

/-- Claim C9 (counterexample): `join_csv_files` does not leave the
caller's catalog table unchanged — the integer `sku` cell of `m9` has
been coerced to text in place after the call. -/
theorem claim_C9_cx : (joinCsvFiles m9 c5csv).2.1 ≠ m9 := by decide

/-- Claim C9 (amended): `join_csv_files` mutates the catalog in a single
specific way — every `sku` cell is replaced by its textual form while the
columns and every non-`sku` cell are unchanged (so the table is unchanged
only when every `sku` value is already a string). -/
theorem claim_C9_amended (m i : DataFrame) (h : "sku" ∈ m.columns) :
    (joinCsvFiles m i).2.1.columns = m.columns ∧
    List.Forall₂ (fun r r' => getVal r' "sku" = .vstr (pyStr (getVal r "sku")) ∧
      ∀ k, k ≠ "sku" → getVal r' k = getVal r k) m.rows (joinCsvFiles m i).2.1.rows := by
  rw [joinCsv_state, if_pos h]
  constructor
  · rfl
  · refine forall₂_map_self _ _ ?_
    intro r _
    refine ⟨getVal_setField_same r "sku" _, ?_⟩
    intro k hk
    exact getVal_setField_other r "sku" k _ hk

/-- Witness for the amended claim C9 at the integer-keyed catalog. -/
theorem claim_C9_amended_witness :
    (joinCsvFiles m9 c5csv).2.1.columns = m9.columns ∧
    List.Forall₂ (fun r r' => getVal r' "sku" = .vstr (pyStr (getVal r "sku")) ∧
      ∀ k, k ≠ "sku" → getVal r' k = getVal r k) m9.rows (joinCsvFiles m9 c5csv).2.1.rows :=
  claim_C9_amended m9 c5csv (by decide)

/-- Claim C10: the category of every tagged record is exactly the source
base name of the source file without extension (overwriting any prior
value), and
every row of a successful merge carries the category of one of the input
files. -/
theorem claim_C10 :
    (∀ p rs, (taggedRecords ⟨p, some rs⟩).map (fun r => getVal r "category") =
      rs.map (fun _ => Val.vstr (categoryOfPath p))) ∧
    (∀ fs df, (mergeJsonFiles fs).1 = .ok df → ∀ row ∈ df.rows,
      ∃ f ∈ fs, getVal row "category" = .vstr (categoryOfPath f.path)) := by
  constructor
  · intro p rs
    simp only [taggedRecords, List.map_map]
    refine List.map_congr_left ?_
    intro r _
    simp only [Function.comp_apply]
    exact getVal_setField_same r "category" _
  · intro fs df hok row hrow
    rw [mergeJsonFiles_fst] at hok
    obtain ⟨hcat, hsku, hdf⟩ := mergeCore_ok _ _ hok
    obtain ⟨g, hg, hgp⟩ := addMissing_exists ((renamedState (aggRecords fs)).1)
      (dropDupLast skuOf (sortByCategory (renamedState (aggRecords fs)).2)) [] hsku hcat
    have hrows : df.rows =
        (dropDupLast skuOf (sortByCategory (renamedState (aggRecords fs)).2)).map
          (fun r => projectRow requiredColumns (g r)) := by
      rw [hdf]
      show (addMissing _).2.1.map _ = _
      rw [hg, List.map_map]
      rfl
    rw [hrows] at hrow
    obtain ⟨r2, hr2, hback⟩ := List.mem_map.mp hrow
    have hmem0 : r2 ∈ (renamedState (aggRecords fs)).2 :=
      (sortByCategory_perm _).mem_iff.mp (mem_of_mem_dropDupLast skuOf _ r2 hr2)
    obtain ⟨r0, hr0, hcateq⟩ := renamed_rows_cat hmem0
    obtain ⟨f, hf, hfval⟩ := agg_category_val hr0
    refine ⟨f, hf, ?_⟩
    rw [← hback]
    have hproj : getVal (projectRow requiredColumns (g r2)) "category" =
        getVal r2 "category" := by
      rw [getVal_projectRow _ _ (by simp [requiredColumns])]
      exact hgp r2 "category" (by decide) (by decide)
    rw [hproj, hcateq, hfval]

/-- Witness for claim C10 at the concrete merge of `fsC1`. -/
theorem claim_C10_witness :
    ∃ f ∈ fsC1,
      getVal [("sku", Val.vint 1), ("name", Val.vstr "Y"), ("brand", Val.vstr ""),
        ("category", Val.vstr "home")] "category" = .vstr (categoryOfPath f.path) :=
  claim_C10.2 fsC1 dfC1 rfl _ (by simp [dfC1])


end Solution
